import Mathlib

/-!
Shallow embedding of the smart-email-cleaner repository
(src/gmail/smart_gmail_cleaner.py and src/outlook/smart_email_cleaner.py,
two near-identical provider variants of the same engine) together with
proofs of the frozen claims about it.

Python strings are modelled as `List Char`; Python `str.lower()` is
modelled character-wise (ASCII case folding, which agrees with CPython on
every string occurring in the source and in the claims), `needle in hay`
as `containsSub`, `str <`/`>` as lexicographic comparison by code point.
Machine-independent integers stay `Nat`/`Int`; Python float division for
the read rate is modelled over `ℚ` (the source only ever divides two small
nonnegative integers, compares the quotient with 0 and 0.2, and multiplies
it by 100 for display, so rational arithmetic is exact for everything the
source observes).
-/

namespace SmartEmailCleaner

/-- Python strings, modelled as lists of characters. -/
abbrev Str := List Char

/-- The apostrophe character (U+0027), built numerically; it occurs in the
source's keyword list (`don't miss`) and in the scenario subject line. -/
def apos : Char := Char.ofNat 39

/-- Python `str.lower()`, modelled character-wise. -/
def lowerStr (s : Str) : Str := s.map Char.toLower

/-- Whether `n` is a prefix of `h`, as booleans over characters. -/
def isPrefixCh : Str → Str → Bool
  | [], _ => true
  | _ :: _, [] => false
  | a :: as, b :: bs => a == b && isPrefixCh as bs

/-- Python's substring test `needle in hay`. -/
def containsSub (hay needle : Str) : Bool :=
  match hay with
  | [] => needle.isEmpty
  | _ :: rest => isPrefixCh needle hay || containsSub rest needle

/-- Python string `<`: lexicographic comparison by code point. -/
def strLt : Str → Str → Bool
  | [], [] => false
  | [], _ :: _ => true
  | _ :: _, [] => false
  | a :: as, b :: bs => a < b || (a == b && strLt as bs)

/-- Python `str.strip()` restricted to a character class: drop matching
characters from both ends. -/
def stripBy (p : Char → Bool) (s : Str) : Str :=
  ((s.dropWhile p).reverse.dropWhile p).reverse

/-- Python `str.strip()` (whitespace). -/
def stripWs (s : Str) : Str := stripBy Char.isWhitespace s

/-- Python `str.strip('"')`. -/
def stripQuotes (s : Str) : Str := stripBy (fun c => c == '"') s

/-- Split `s` at the first `>`: `some (before, after)` when `s` contains a
`>`, `none` otherwise.  Helper for the regex `<([^>]+)>` of
`parse_sender` (src/gmail/smart_gmail_cleaner.py:126). -/
def splitAtGt : Str → Option (Str × Str)
  | [] => none
  | c :: rest =>
    if c == '>' then some ([], rest)
    else match splitAtGt rest with
      | some (a, b) => some (c :: a, b)
      | none => none

/-- `re.search(r'<([^>]+)>', s)`: the capture of the leftmost match.  A
match starts at a `<` that is followed by at least one character before
the next `>`; the greedy `[^>]+` runs exactly up to that next `>`. -/
def findAngle : Str → Option Str
  | [] => none
  | c :: rest =>
    if c == '<' then
      match splitAtGt rest with
      | some (cap, _) => if cap.isEmpty then findAngle rest else some cap
      | none => none
    else findAngle rest

/-- Fuel-indexed worker for `replaceAll`; each step consumes at least one
character of the remaining haystack, so `fuel := s.length` suffices. -/
def replaceAllFuel (pat : Str) : Nat → Str → Str
  | 0, s => s
  | _, [] => []
  | fuel + 1, c :: rest =>
    if !pat.isEmpty && isPrefixCh pat (c :: rest) then
      replaceAllFuel pat fuel ((c :: rest).drop pat.length)
    else c :: replaceAllFuel pat fuel rest

/-- Python `s.replace(pat, '')` for a nonempty `pat`: erase every
(left-to-right, non-overlapping) occurrence. -/
def replaceAll (s pat : Str) : Str := replaceAllFuel pat s.length s

/-- The fallback sender value `"unknown"`. -/
def unknownStr : Str := "unknown".toList

/-- `parse_sender` (src/gmail/smart_gmail_cleaner.py:121-135): split a
From header into (address, display name).  An empty header yields
`("unknown", "unknown")`; a `Display Name <addr>` header yields the
lowercased capture plus the header with every `<addr>` removed, stripped
of whitespace and quotes (falling back to the address when that leaves
nothing); a bare header containing `@` is lowercased and stripped; any
other header is returned unchanged as both components. -/
def parse_sender (from_header : Str) : Str × Str :=
  if from_header.isEmpty then (unknownStr, unknownStr)
  else
    match findAngle from_header with
    | some cap =>
      let email := lowerStr cap
      let name := stripQuotes (stripWs (replaceAll from_header ('<' :: cap ++ ['>'])))
      (email, if name.isEmpty then email else name)
    | none =>
      if from_header.contains '@' then
        let t := stripWs (lowerStr from_header)
        (t, t)
      else (from_header, from_header)

/-! ### Marketing classifier (src/gmail/smart_gmail_cleaner.py:42-68, 206-257;
the outlook variant duplicates the lists and the scoring, reads the sender
from structured fields instead of `parse_sender`, has no provider category
hints, and omits the last four entries of the domain list). -/

/-- `MARKETING_KEYWORDS` (src/gmail/smart_gmail_cleaner.py:42-49). -/
def MARKETING_KEYWORDS : List Str :=
  ["unsubscribe".toList, "opt-out".toList, "opt out".toList,
   "email preferences".toList, "manage preferences".toList,
   "view in browser".toList, "view online".toList, "click here".toList,
   "limited time".toList, "act now".toList,
   "don".toList ++ apos :: "t miss".toList, "exclusive offer".toList,
   "special offer".toList, "discount".toList, "sale".toList,
   "free shipping".toList, "order now".toList, "buy now".toList,
   "shop now".toList, "deal".toList, "promo".toList,
   "newsletter".toList, "weekly digest".toList, "daily digest".toList,
   "notification settings".toList, "update your preferences".toList,
   "manage subscriptions".toList, "email settings".toList]

/-- `MARKETING_SENDER_PATTERNS` (src/gmail/smart_gmail_cleaner.py:51-55). -/
def MARKETING_SENDER_PATTERNS : List Str :=
  ["noreply".toList, "no-reply".toList, "newsletter".toList,
   "marketing".toList, "promo".toList, "offers".toList, "deals".toList,
   "news@".toList, "info@".toList, "hello@".toList, "support@".toList,
   "team@".toList, "updates@".toList, "notifications@".toList,
   "alert@".toList, "mailer".toList, "campaign".toList, "bulk".toList,
   "mass".toList]

/-- `KNOWN_MARKETING_DOMAINS` (src/gmail/smart_gmail_cleaner.py:57-68). -/
def KNOWN_MARKETING_DOMAINS : List Str :=
  ["linkedin.com".toList, "facebookmail.com".toList, "twitter.com".toList,
   "pinterest.com".toList, "quora.com".toList, "medium.com".toList,
   "substack.com".toList, "mailchimp.com".toList, "sendgrid.net".toList,
   "amazonses.com".toList, "constantcontact.com".toList,
   "hubspot.com".toList, "salesforce.com".toList, "marketo.com".toList,
   "pardot.com".toList, "groupon.com".toList, "retailmenot.com".toList,
   "slickdeals.net".toList, "wish.com".toList, "aliexpress.com".toList,
   "banggood.com".toList, "shein.com".toList, "spotify.com".toList,
   "netflix.com".toList, "hulu.com".toList, "discord.com".toList,
   "uber.com".toList, "lyft.com".toList, "doordash.com".toList,
   "grubhub.com".toList, "yelp.com".toList, "tripadvisor.com".toList,
   "booking.com".toList, "expedia.com".toList, "youtube.com".toList,
   "tiktok.com".toList, "instagram.com".toList, "snapchat.com".toList]

/-- One fetched message, as the dictionaries built by `fetch_emails`
(src/gmail/smart_gmail_cleaner.py:172-181) expose it to the analysis
stages: opaque id, optional thread id, raw From header, subject, snippet,
raw timestamp string, provider labels (category hints) and the read flag.
The outlook variant carries the same information under different keys
(`bodyPreview` for the snippet, `receivedDateTime` for the date, a
structured `from` whose address/name play the role of the parsed
header, and no labels). -/
structure Email where
  id : Str
  threadId : Option Str := none
  fromHeader : Str := []
  subject : Str := []
  snippet : Str := []
  date : Str := []
  labelIds : List Str := []
  isRead : Bool := false
deriving Repr, DecidableEq

/-- The Gmail promotional category label. -/
def promotionsLabel : Str := "CATEGORY_PROMOTIONS".toList

/-- The Gmail social category label. -/
def socialLabel : Str := "CATEGORY_SOCIAL".toList

/-- The combined keyword haystack `subject + " " + snippet`
(src/gmail/smart_gmail_cleaner.py:239), both parts already lowercased. -/
def marketingText (subject snippet : Str) : Str := subject ++ ' ' :: snippet

/-- The number of entries of `MARKETING_KEYWORDS` occurring in `text`
(src/gmail/smart_gmail_cleaner.py:240-243). -/
def keywordMatches (text : Str) : Nat :=
  MARKETING_KEYWORDS.countP (fun k => containsSub text k)

/-- The first matching sender pattern, if any
(src/gmail/smart_gmail_cleaner.py:225-229; the loop breaks at the first
hit, so the pattern scores at most once). -/
def senderPatternHit (sender_email sender_name : Str) : Option Str :=
  MARKETING_SENDER_PATTERNS.find?
    (fun p => containsSub sender_email p || containsSub sender_name p)

/-- The first matching known marketing domain, if any
(src/gmail/smart_gmail_cleaner.py:232-236). -/
def domainHit (sender_email : Str) : Option Str :=
  KNOWN_MARKETING_DOMAINS.find? (fun d => containsSub sender_email d)

/-- The keyword component of the score: `+4` for three or more distinct
keywords, `+2` for at least one, `0` otherwise
(src/gmail/smart_gmail_cleaner.py:245-250). -/
def keywordScore (text : Str) : Nat :=
  if keywordMatches text ≥ 3 then 4
  else if keywordMatches text ≥ 1 then 2
  else 0

/-- The literal substring "unsubscribe". -/
def unsubscribeStr : Str := "unsubscribe".toList

/-- The unsubscribe component of the score
(src/gmail/smart_gmail_cleaner.py:253-255). -/
def unsubscribeScore (text : Str) : Nat :=
  if containsSub text unsubscribeStr then 3 else 0

/-- The accumulated heuristic score of the non-shortcircuit path of
`is_marketing_email` (src/gmail/smart_gmail_cleaner.py:221-255). -/
def heuristicScore (sender_email sender_name text : Str) : Nat :=
  (if (senderPatternHit sender_email sender_name).isSome then 2 else 0)
    + (if (domainHit sender_email).isSome then 3 else 0)
    + keywordScore text + unsubscribeScore text

/-- The reason string `contains 'unsubscribe'`. -/
def unsubscribeReason : Str :=
  "contains ".toList ++ apos :: "unsubscribe".toList ++ [apos]

/-- The reasons list accumulated along the heuristic path, mirroring the
four `reasons.append` sites of src/gmail/smart_gmail_cleaner.py:221-255. -/
def heuristicReasons (sender_email sender_name text : Str) : List Str :=
  (match senderPatternHit sender_email sender_name with
    | some p => ["sender pattern: ".toList ++ p]
    | none => [])
  ++ (match domainHit sender_email with
    | some d => ["known marketing domain: ".toList ++ d]
    | none => [])
  ++ (if keywordMatches text ≥ 3 then
        [(Nat.repr (keywordMatches text)).toList ++ " marketing keywords".toList]
      else if keywordMatches text ≥ 1 then
        [(Nat.repr (keywordMatches text)).toList ++ " marketing keyword(s)".toList]
      else [])
  ++ (if containsSub text unsubscribeStr then [unsubscribeReason] else [])

/-- `is_marketing_email` (src/gmail/smart_gmail_cleaner.py:206-257):
provider hints short-circuit to 5 (Promotions) or 4 (Social); otherwise
sender patterns (+2), known domains (+3), keywords (+4/+2/0) and the
literal "unsubscribe" (+3) accumulate, and the boolean is `score >= 3`. -/
def is_marketing_email (e : Email) : Bool × Nat × List Str :=
  let subject := lowerStr e.subject
  let snippet := lowerStr e.snippet
  let parsed := parse_sender e.fromHeader
  let sender_email := parsed.1
  let sender_name := lowerStr parsed.2
  if e.labelIds.contains promotionsLabel then
    (true, 5, ["Gmail marked as Promotions".toList])
  else if e.labelIds.contains socialLabel then
    (true, 4, ["Gmail marked as Social".toList])
  else
    let text := marketingText subject snippet
    let score := heuristicScore sender_email sender_name text
    (decide (score ≥ 3), score, heuristicReasons sender_email sender_name text)

/-! ### Sender aggregator (src/gmail/smart_gmail_cleaner.py:260-311;
src/outlook/smart_email_cleaner.py:198-249).  The `defaultdict` keyed by
sender address is modelled as an association list in first-sighting
order, with an explicit get-or-create update. -/

/-- The per-sender accumulator dictionary of `analyze_emails`
(src/gmail/smart_gmail_cleaner.py:264-275).  `read_rate` lives in `ℚ`;
the outlook variant has no `is_promotional` field, which simply stays
`false` there. -/
structure SenderStats where
  total : Nat := 0
  unread : Nat := 0
  read : Nat := 0
  marketing_score : Nat := 0
  emails : List Email := []
  name : Str := []
  oldest : Option Str := none
  newest : Option Str := none
  read_rate : ℚ := 0
  is_promotional : Bool := false
deriving Repr, DecidableEq

/-- The `defaultdict` default factory value. -/
def emptyStats : SenderStats := {}

/-- Get-or-create update of the association list standing for the
`defaultdict`: apply `f` to the entry at `k`, creating it from
`emptyStats` at the end when absent (CPython dicts preserve insertion
order). -/
def updateAssoc (k : Str) (f : SenderStats → SenderStats) :
    List (Str × SenderStats) → List (Str × SenderStats)
  | [] => [(k, f emptyStats)]
  | (k', v) :: rest =>
    if k' == k then (k', f v) :: rest else (k', v) :: updateAssoc k f rest

/-- `oldest` tracking (src/gmail/smart_gmail_cleaner.py:301-302): replace
when unset or when the new date string compares smaller. -/
def trackOldest (d : Str) : Option Str → Option Str
  | none => some d
  | some o => if strLt d o then some d else some o

/-- `newest` tracking (src/gmail/smart_gmail_cleaner.py:303-304). -/
def trackNewest (d : Str) : Option Str → Option Str
  | none => some d
  | some o => if strLt o d then some d else some o

/-- The sender key of a message: the address component of its parsed
From header (src/gmail/smart_gmail_cleaner.py:278). -/
def senderKey (e : Email) : Str := (parse_sender e.fromHeader).1

/-- The per-message accumulator update of the `analyze_emails` loop body
(src/gmail/smart_gmail_cleaner.py:277-304): bump `total`, overwrite the
display name, append the message, fold in the classifier score and the
promotional hint, bump `read`/`unread` per the read flag, and track the
date extrema when the date string is nonempty. -/
def stepFn (e : Email) (st : SenderStats) : SenderStats :=
  let st :=
    { st with
      total := st.total + 1
      name := (parse_sender e.fromHeader).2
      emails := st.emails ++ [e]
      marketing_score := max st.marketing_score (is_marketing_email e).2.1
      is_promotional := st.is_promotional || e.labelIds.contains promotionsLabel }
  let st :=
    if e.isRead then { st with read := st.read + 1 }
    else { st with unread := st.unread + 1 }
  if e.date.isEmpty then st
  else { st with oldest := trackOldest e.date st.oldest
                 newest := trackNewest e.date st.newest }

/-- One iteration of the `analyze_emails` fold. -/
def analyzeStep (m : List (Str × SenderStats)) (e : Email) :
    List (Str × SenderStats) :=
  updateAssoc (senderKey e) (stepFn e) m

/-- The read-rate pass run after the fold
(src/gmail/smart_gmail_cleaner.py:307-309): divide only when `total > 0`. -/
def finalizeStats (st : SenderStats) : SenderStats :=
  if st.total > 0 then { st with read_rate := (st.read : ℚ) / (st.total : ℚ) }
  else st

/-- `analyze_emails` (src/gmail/smart_gmail_cleaner.py:260-311): fold the
messages into the per-sender map, then compute every read rate. -/
def analyze_emails (emails : List Email) : List (Str × SenderStats) :=
  (emails.foldl analyzeStep []).map (fun p => (p.1, finalizeStats p.2))

/-! ### Categorizer (src/gmail/smart_gmail_cleaner.py:314-416;
src/outlook/smart_email_cleaner.py:252-336).  The single pass over the
map appends each qualifying sender to each category list in map order and
accumulates each category's message count, which is the same as filtering
the map per category; afterwards every list is sorted by message count,
descending and stable.  The display-only `title`/`description` strings
are omitted.  Timestamp parsing for the 30-day cutoff
(src/gmail/smart_gmail_cleaner.py:392-403: `datetime.strptime` of
`date_str[:31]` against the two formats in order inside `try`/`except`;
src/outlook/smart_email_cleaner.py:318-323: `datetime.fromisoformat`
inside `try`/`except`) is abstracted as a parameter
`parseDate : Str → Option Int` returning the parsed instant of the first
format that succeeds, `none` when every attempt fails; the cutoff
`now - 30 days` is the parameter `cutoff`. -/

/-- One category bucket: its member list and its accumulated message
count (titles and descriptions omitted). -/
structure Category where
  senders : List (Str × SenderStats) := []
  email_count : Nat := 0
deriving Repr, DecidableEq

/-- The six buckets of the gmail variant, in the source's dictionary
order (the outlook variant lacks `promotional`). -/
structure Categories where
  promotional : Category
  marketing : Category
  never_opened : Category
  rarely_opened : Category
  old_unread : Category
  bulk_senders : Category
deriving Repr, DecidableEq

/-- `never_opened` rule: `total >= 5 and read == 0`
(src/gmail/smart_gmail_cleaner.py:371). -/
def neverOpenedPred (st : SenderStats) : Bool :=
  decide (st.total ≥ 5) && decide (st.read = 0)

/-- `rarely_opened` rule, reachable only through the `elif` after
`never_opened`: `total >= 3 and read_rate < 0.2 and read_rate > 0`
(src/gmail/smart_gmail_cleaner.py:376). -/
def rarelyOpenedPred (st : SenderStats) : Bool :=
  !neverOpenedPred st && decide (st.total ≥ 3)
    && decide (st.read_rate < 0.2) && decide (st.read_rate > 0)

/-- `marketing` rule, reachable only through the `elif` after
`promotional`: not provider-promotional and `marketing_score >= 3`
(src/gmail/smart_gmail_cleaner.py:366). -/
def marketingPred (st : SenderStats) : Bool :=
  !st.is_promotional && decide (st.marketing_score ≥ 3)

/-- The qualifying messages of the `old_unread` rule: unread, nonempty
date string, parsed by some format, and strictly before the cutoff
(src/gmail/smart_gmail_cleaner.py:386-403); a message whose date parses
under no format is skipped, never raising. -/
def oldUnreadEmails (parseDate : Str → Option Int) (cutoff : Int)
    (emails : List Email) : List Email :=
  emails.filter (fun e =>
    !e.isRead && !e.date.isEmpty &&
      match parseDate e.date with
      | some d => decide (d < cutoff)
      | none => false)

/-- The derived `old_unread` member for one sender, when any message
qualifies: a shallow copy of the sender's stats with only `emails`
replaced by the qualifying subset and `total` by its size
(src/gmail/smart_gmail_cleaner.py:405-410). -/
def oldUnreadEntry (parseDate : Str → Option Int) (cutoff : Int)
    (x : Str × SenderStats) : Option (Str × SenderStats) :=
  let ou := oldUnreadEmails parseDate cutoff x.2.emails
  if ou.isEmpty then none
  else some (x.1, { x.2 with emails := ou, total := ou.length })

/-- The stable descending sort by member message count applied to every
category list (src/gmail/smart_gmail_cleaner.py:413-414, Python
`list.sort(key=..., reverse=True)`). -/
def sortByTotal (l : List (Str × SenderStats)) : List (Str × SenderStats) :=
  l.mergeSort (fun a b => decide (b.2.total ≤ a.2.total))

/-- A category's accumulated message count: the sum of its members'
(category-scoped) totals. -/
def sumTotals (l : List (Str × SenderStats)) : Nat :=
  (l.map (fun p => p.2.total)).sum

/-- `categorize_senders` (src/gmail/smart_gmail_cleaner.py:314-416). -/
def categorize_senders (parseDate : Str → Option Int) (cutoff : Int)
    (m : List (Str × SenderStats)) : Categories :=
  let promo := m.filter (fun x => x.2.is_promotional)
  let mk := m.filter (fun x => marketingPred x.2)
  let nev := m.filter (fun x => neverOpenedPred x.2)
  let rar := m.filter (fun x => rarelyOpenedPred x.2)
  let blk := m.filter (fun x => decide (x.2.total ≥ 20))
  let old := m.filterMap (oldUnreadEntry parseDate cutoff)
  { promotional := ⟨sortByTotal promo, sumTotals promo⟩
    marketing := ⟨sortByTotal mk, sumTotals mk⟩
    never_opened := ⟨sortByTotal nev, sumTotals nev⟩
    rarely_opened := ⟨sortByTotal rar, sumTotals rar⟩
    old_unread := ⟨sortByTotal old, sumTotals old⟩
    bulk_senders := ⟨sortByTotal blk, sumTotals blk⟩ }

/-! ### Selection resolver: the auto-clean-all deduplication
(src/gmail/smart_gmail_cleaner.py:569-577;
src/outlook/smart_email_cleaner.py:504-512).  The triple loop walks
categories in dictionary order, members in list order and messages in
list order, keeping a message only when its id was not seen before; the
`set` of seen ids is modelled as a list. -/

/-- The category lists in the dictionary order the auto-clean loop
iterates them. -/
def catsList (c : Categories) : List Category :=
  [c.promotional, c.marketing, c.never_opened, c.rarely_opened,
   c.old_unread, c.bulk_senders]

/-- The loop body of the auto-clean deduplication
(src/gmail/smart_gmail_cleaner.py:575-577): skip a seen id, otherwise
record it and append the message. -/
def dedupStep (acc : List Str × List Email) (e : Email) :
    List Str × List Email :=
  if acc.1.contains e.id then acc else (e.id :: acc.1, acc.2 ++ [e])

/-- `all_emails` as the auto-clean branch builds it: the nested fold over
categories, members and messages. -/
def auto_clean_emails (cats : Categories) : List Email :=
  ((catsList cats).foldl
    (fun acc cat =>
      cat.senders.foldl (fun acc x => x.2.emails.foldl dedupStep acc) acc)
    ([], [])).2

/-- Every message referenced by the categories, concatenated in the same
category-then-member-then-message order, before deduplication. -/
def collectEmails (cats : Categories) : List Email :=
  ((catsList cats).map
    (fun cat => (cat.senders.map (fun x => x.2.emails)).flatten)).flatten

/-- Id-keyed first-occurrence deduplication of a flat message list: the
same fold as `auto_clean_emails`, over an already-concatenated input. -/
def dedupById (l : List Email) : List Email := (l.foldl dedupStep ([], [])).2

/-! ### Batch mutation executor (src/gmail/smart_gmail_cleaner.py:445-469;
src/outlook/smart_email_cleaner.py:365-402).  The per-message provider
interaction is the parameter `resp`: `resp i e = some true` is a request
that returned success, `some false` one that returned a non-success
status (the outlook variant's `ok` flag; the gmail API raises instead of
returning failure, so its runs never produce `some false`), and `none` a
raised exception, which the `except` arm counts as one failure.  The
progress prints and the per-100 sleeps touch no counter and are not
modelled. -/

/-- `delete_emails_batch`: walk the messages in input order with a running
index and success/failure counters; a non-success status or a caught
exception each count one failure and processing continues. -/
def delete_emails_batch (resp : Nat → Email → Option Bool)
    (emails : List Email) : Nat × Nat :=
  let r := emails.foldl
    (fun (acc : Nat × Nat × Nat) e =>
      match resp acc.1 e with
      | some true => (acc.1 + 1, acc.2.1 + 1, acc.2.2)
      | some false => (acc.1 + 1, acc.2.1, acc.2.2 + 1)
      | none => (acc.1 + 1, acc.2.1, acc.2.2 + 1))
    (0, 0, 0)
  (r.2.1, r.2.2)

/-! ### Selection expressions (src/gmail/smart_gmail_cleaner.py:601-620;
src/outlook/smart_email_cleaner.py:537-556).  The already
stripped-and-lowercased input is either `all`, an `a-b` range applied as
the Python slice `displayed[a-1:b]`, or a comma list of 1-based indices;
`int()` is modelled on ASCII inputs without underscore separators
(optional surrounding whitespace, optional sign, decimal digits). -/

/-- The digits of an ASCII decimal numeral, or `none` when empty or not
all digits. -/
def digitsToNat (s : Str) : Option Nat :=
  if s.isEmpty || !s.all Char.isDigit then none
  else some (s.foldl (fun acc c => acc * 10 + (c.toNat - '0'.toNat)) 0)

/-- Python `int(s)` on ASCII input: optional surrounding whitespace, an
optional sign, then decimal digits; `none` models the `ValueError` the
bare `except` arms catch. -/
def pyInt (s : Str) : Option Int :=
  match stripWs s with
  | '+' :: ds => (digitsToNat ds).map Int.ofNat
  | '-' :: ds => (digitsToNat ds).map (fun n => -(n : Int))
  | ds => (digitsToNat ds).map Int.ofNat

/-- Python `s.split(c)` for a one-character separator (`''.split(c)` is
`['']`). -/
def splitOnChar (c : Char) : Str → List Str
  | [] => [[]]
  | x :: rest =>
    let r := splitOnChar c rest
    if x == c then [] :: r
    else match r with
      | h :: t => (x :: h) :: t
      | [] => [[x]]

/-- Python slice `l[start:stop]` with the default step: negative bounds
wrap by the length, then both clamp to `[0, len]`. -/
def pySlice {α : Type} (l : List α) (start stop : Int) : List α :=
  let n : Int := l.length
  let s := if start < 0 then max (start + n) 0 else min start n
  let e := if stop < 0 then max (stop + n) 0 else min stop n
  (l.drop s.toNat).take (e.toNat - s.toNat)

/-- The `a-b` branch's parse: `a, b = map(int, sel.split('-'))` succeeds
exactly when the split has two parts and both parse. -/
def parseRange (sel : Str) : Option (Int × Int) :=
  match splitOnChar '-' sel with
  | [sa, sb] =>
    match pyInt sa, pyInt sb with
    | some a, some b => some (a, b)
    | _, _ => none
  | _ => none

/-- The comma branch's parse: `[int(x.strip()) for x in sel.split(',')]`,
`none` when any part fails. -/
def parseCommaList (sel : Str) : Option (List Int) :=
  (splitOnChar ',' sel).mapM (fun part => pyInt (stripWs part))

/-- The selection resolution of the `2` submenu
(src/gmail/smart_gmail_cleaner.py:607-620): `all` keeps the whole
displayed list; an expression with a `-` and no `,` is an `a-b` range
sliced as `displayed[a-1:b]`; anything else is a comma list keeping the
in-range 1-based indices; a failed parse leaves the selection empty. -/
def resolveSelection {α : Type} (sel : Str) (displayed : List α) : List α :=
  if sel = "all".toList then displayed
  else if sel.contains '-' && !sel.contains ',' then
    match parseRange sel with
    | some (a, b) => pySlice displayed (a - 1) b
    | none => []
  else
    match parseCommaList sel with
    | some nums =>
      nums.filterMap (fun (n : Int) =>
        if 0 < n ∧ n ≤ (displayed.length : Int) then displayed[(n - 1).toNat]?
        else none)
    | none => []

/-! ### Helper definitions for the theorems -/

/-- The per-sender `read` counts summed over an association list. -/
def sumRead (l : List (Str × SenderStats)) : Nat :=
  (l.map (fun p => p.2.read)).sum

/-- The per-sender `unread` counts summed over an association list. -/
def sumUnread (l : List (Str × SenderStats)) : Nat :=
  (l.map (fun p => p.2.unread)).sum

/-- Direct-recursion form of the id-keyed deduplication: keep a message
exactly when its id is not in `seen`, recording kept ids.  Equal to the
accumulator fold `dedupById` (proved below); its shape makes the
first-occurrence placement explicit. -/
def keepFirst (seen : List Str) : List Email → List Email
  | [] => []
  | e :: rest =>
    if seen.contains e.id then keepFirst seen rest
    else e :: keepFirst (e.id :: seen) rest

/-- The seen-id list after scanning `l` starting from `seen`. -/
def seenAfter (seen : List Str) : List Email → List Str
  | [] => seen
  | e :: rest =>
    if seen.contains e.id then seenAfter seen rest
    else seenAfter (e.id :: seen) rest

/-- A sender-stats record with the given counts and the read rate the
aggregation finalizer computes for them, as in the claim scenarios. -/
def statsOf (total read : Nat) : SenderStats :=
  finalizeStats { total := total, read := read, unread := total - read }

/-- A date parser for which every timestamp string fails to parse. -/
def pNone : Str → Option Int := fun _ => none

/-- A date parser for which every timestamp string parses to instant 0. -/
def pZero : Str → Option Int := fun _ => some 0

/-- Demo message: read mail from `a@x.com`. -/
def demoEmail1 : Email :=
  { id := "m1".toList, fromHeader := "a@x.com".toList, isRead := true }

/-- Demo message: unread mail from the same sender. -/
def demoEmail2 : Email :=
  { id := "m2".toList, fromHeader := "a@x.com".toList, isRead := false }

/-- Demo input sequence for the aggregation witnesses. -/
def demoEmails : List Email := [demoEmail1, demoEmail2]

/-- The single aggregation entry `analyze_emails demoEmails` produces. -/
def demoPair : Str × SenderStats :=
  ("a@x.com".toList,
   { total := 2, unread := 1, read := 1, marketing_score := 0,
     emails := [demoEmail1, demoEmail2], name := "a@x.com".toList,
     oldest := none, newest := none, read_rate := 1 / 2,
     is_promotional := false })

/-- Demo message: old unread mail with a (nominally parsable) date. -/
def demoOld : Email :=
  { id := "o1".toList, fromHeader := "b@y.com".toList,
    date := "D".toList, isRead := false }

/-- Demo sender-stats map owning `demoOld`, for the categorizer
witnesses. -/
def mOld : List (Str × SenderStats) :=
  [("b@y.com".toList,
    { total := 1, unread := 1, read := 0, emails := [demoOld] })]

/-- The `old_unread` member the categorizer derives from `mOld` under
`pZero` with cutoff 1. -/
def xOld : Str × SenderStats :=
  ("b@y.com".toList,
   { total := 1, unread := 1, read := 0, emails := [demoOld] })

/-- Demo sender-stats map for the bucket-rule scenarios: one sender with
six messages none read, one with three messages none read. -/
def mBuckets : List (Str × SenderStats) :=
  [("six@x.com".toList, statsOf 6 0), ("three@x.com".toList, statsOf 3 0)]

/-- Demo category holding both demo messages of `a@x.com`. -/
def catDemoA : Category :=
  ⟨[("a@x.com".toList,
     { total := 2, unread := 1, read := 1,
       emails := [demoEmail1, demoEmail2] })], 2⟩

/-- Demo category repeating the first demo message via a second bucket. -/
def catDemoB : Category :=
  ⟨[("a@x.com".toList,
     { total := 1, unread := 0, read := 1, emails := [demoEmail1] })], 1⟩

/-- Demo category family in which `demoEmail1` appears twice across
buckets, for the deduplication witness. -/
def catsDemo : Categories :=
  { promotional := catDemoA, marketing := catDemoB, never_opened := {}
    rarely_opened := {}, old_unread := {}, bulk_senders := {} }

/-- The scenario subject line `Exclusive Offer — Don't Miss This Sale!`
(the apostrophe is spliced in as a character). -/
def subjShein : Str :=
  "Exclusive Offer — Don".toList ++ apos :: "t Miss This Sale!".toList

/-- The scenario message: sender `newsletter@shein.com`, the scenario
subject, no provider category hints, and the given snippet. -/
def sheinEmail (snippet : Str) : Email :=
  { id := "s1".toList, fromHeader := "newsletter@shein.com".toList,
    subject := subjShein, snippet := snippet }

/-! ### Theorems.  Batteries marks rational arithmetic `irreducible`,
which blocks the evaluation of concrete read rates inside `decide`; the
local attribute below restores plain unfolding for this file's concrete
witness computations (the kernel is unaffected either way). -/

section DecidableRatEval

set_option allowUnsafeReducibility true

attribute [local semireducible] Rat.mul Rat.inv Rat.add Rat.sub Rat.ofScientific

/-- The number of messages of `l` whose request (at running index starting
from `i`) returns success. -/
def successCount (resp : Nat → Email → Option Bool) : Nat → List Email → Nat
  | _, [] => 0
  | i, e :: rest =>
    (if resp i e = some true then 1 else 0) + successCount resp (i + 1) rest

theorem successCount_le (resp : Nat → Email → Option Bool) :
    ∀ (i : Nat) (l : List Email), successCount resp i l ≤ l.length := by
  intro i l
  induction l generalizing i with
  | nil => simp [successCount]
  | cons e rest ih =>
    simp only [successCount, List.length_cons]
    have := ih (i + 1)
    split <;> omega

theorem delete_batch_foldl (resp : Nat → Email → Option Bool) :
    ∀ (l : List Email) (i s f : Nat),
      l.foldl
        (fun (acc : Nat × Nat × Nat) e =>
          match resp acc.1 e with
          | some true => (acc.1 + 1, acc.2.1 + 1, acc.2.2)
          | some false => (acc.1 + 1, acc.2.1, acc.2.2 + 1)
          | none => (acc.1 + 1, acc.2.1, acc.2.2 + 1))
        (i, s, f)
      = (i + l.length, s + successCount resp i l,
         f + (l.length - successCount resp i l)) := by
  intro l
  induction l with
  | nil => intro i s f; simp [successCount]
  | cons e rest ih =>
    intro i s f
    have hle := successCount_le resp (i + 1) rest
    simp only [List.foldl_cons, successCount, List.length_cons]
    rcases h : resp i e with _ | b
    · simp [h, ih, Prod.mk.injEq]
      omega
    · rcases b <;> simp [h, ih, Prod.mk.injEq] <;> omega

/-- C1: for every pattern of per-message outcomes (success,
provider-reported failure, or raised exception) the batch mutation
executor returns counts with `success + failed = len(messages)`; the
success count is exactly the number of messages, taken in input order,
whose request returned success, and every other message — including one
whose mutation raised, which the `except` arm catches rather than
propagates — contributes exactly one failure, so processing runs through
the whole input sequence. -/
theorem batch_counts_total (resp : Nat → Email → Option Bool)
    (emails : List Email) :
    (delete_emails_batch resp emails).1
        + (delete_emails_batch resp emails).2 = emails.length
      ∧ (delete_emails_batch resp emails).1 = successCount resp 0 emails
      ∧ (delete_emails_batch resp emails).2
          = emails.length - successCount resp 0 emails := by
  have hle := successCount_le resp 0 emails
  unfold delete_emails_batch
  rw [delete_batch_foldl]
  refine ⟨?_, by simp, by simp⟩
  simp
  omega

/-- C2, counterexample: the From header `Bob` has no angle-bracket
pattern and no bare address, yet the normalizer returns it unchanged
instead of mapping it to `unknown`. -/
theorem parse_sender_bob_not_unknown :
    findAngle "Bob".toList = none
      ∧ "Bob".toList.contains '@' = false
      ∧ parse_sender "Bob".toList = ("Bob".toList, "Bob".toList)
      ∧ parse_sender "Bob".toList ≠ (unknownStr, unknownStr) := by
  refine ⟨by decide, by decide, by decide, by decide⟩

/-- C2, amended: the sender normalizer is total (never raises); an
empty From header maps to address `unknown` and name `unknown`, while a
nonempty header with no `Display Name <addr>` angle-bracket pattern and
no bare address (no `@`) is returned unchanged as both address and
name. -/
theorem parse_sender_fallbacks (s : Str) :
    (s = [] → parse_sender s = (unknownStr, unknownStr))
      ∧ (s ≠ [] → findAngle s = none → s.contains '@' = false →
          parse_sender s = (s, s)) := by
  constructor
  · intro h
    subst h
    decide
  · intro hne hang hat
    unfold parse_sender
    rw [if_neg (by simpa using hne), hang, hat]
    simp

/-- C2 witness: the amended theorem applied to the empty header and to
the concrete unparsable header `Bob`. -/
theorem parse_sender_fallbacks_witness :
    parse_sender [] = (unknownStr, unknownStr)
      ∧ parse_sender "Bob".toList = ("Bob".toList, "Bob".toList) :=
  ⟨(parse_sender_fallbacks []).1 rfl,
   (parse_sender_fallbacks "Bob".toList).2 (by decide) (by decide) (by decide)⟩

theorem updateAssoc_forall {P : SenderStats → Prop} {f : SenderStats → SenderStats}
    (hf : ∀ st, P st → P (f st)) (he : P (f emptyStats)) (k : Str) :
    ∀ m, (∀ p ∈ m, P p.2) → ∀ p ∈ updateAssoc k f m, P p.2 := by
  intro m
  induction m with
  | nil =>
    intro _ p hp
    simp only [updateAssoc, List.mem_singleton] at hp
    simpa [hp] using he
  | cons q rest ih =>
    obtain ⟨k', v⟩ := q
    intro hm p hp
    simp only [updateAssoc] at hp
    split at hp
    · rcases List.mem_cons.mp hp with h | h
      · subst h
        exact hf v (hm (k', v) (List.mem_cons_self _ _))
      · exact hm p (List.mem_cons_of_mem _ h)
    · rcases List.mem_cons.mp hp with h | h
      · subst h
        exact hm (k', v) (List.mem_cons_self _ _)
      · exact ih (fun p hp => hm p (List.mem_cons_of_mem _ hp)) p h

theorem stepFn_fields (e : Email) (st : SenderStats) :
    (stepFn e st).total = st.total + 1
      ∧ (stepFn e st).read + (stepFn e st).unread = st.read + st.unread + 1
      ∧ (stepFn e st).emails = st.emails ++ [e]
      ∧ (stepFn e st).read_rate = st.read_rate := by
  unfold stepFn
  by_cases h : e.isRead <;> by_cases h2 : e.date.isEmpty <;>
    simp [h, h2] <;> omega

/-- The aggregation-fold invariant: counts are consistent, the message
list carries exactly the counted messages, and the read rate is still at
its pre-finalize default. -/
def StatsInv (st : SenderStats) : Prop :=
  st.read + st.unread = st.total ∧ st.total = st.emails.length
    ∧ st.read_rate = 0

theorem stepFn_inv (e : Email) (st : SenderStats) (h : StatsInv st) :
    StatsInv (stepFn e st) := by
  obtain ⟨h1, h2, h3⟩ := h
  obtain ⟨f1, f2, f3, f4⟩ := stepFn_fields e st
  refine ⟨by omega, ?_, by rw [f4, h3]⟩
  rw [f1, f3, h2]
  simp

theorem stepFn_inv_empty (e : Email) : StatsInv (stepFn e emptyStats) :=
  stepFn_inv e emptyStats ⟨rfl, rfl, rfl⟩

theorem analyze_fold_inv :
    ∀ (emails : List Email) (m : List (Str × SenderStats)),
      (∀ p ∈ m, StatsInv p.2) →
      ∀ p ∈ emails.foldl analyzeStep m, StatsInv p.2 := by
  intro emails
  induction emails with
  | nil => intro m hm; simpa only [List.foldl_nil] using hm
  | cons e rest ih =>
    intro m hm
    simp only [List.foldl_cons]
    exact ih _ (updateAssoc_forall (stepFn_inv e) (stepFn_inv_empty e) _ m hm)

theorem updateAssoc_sumTotals {f : SenderStats → SenderStats}
    (hf : ∀ st, (f st).total = st.total + 1) (k : Str) :
    ∀ m, sumTotals (updateAssoc k f m) = sumTotals m + 1 := by
  intro m
  induction m with
  | nil =>
    simp only [updateAssoc, sumTotals, List.map_cons, List.map_nil,
      List.sum_cons, List.sum_nil, hf]
    rfl
  | cons q rest ih =>
    obtain ⟨k', v⟩ := q
    simp only [updateAssoc]
    split
    · simp only [sumTotals, List.map_cons, List.sum_cons, hf]
      omega
    · simp only [sumTotals, List.map_cons, List.sum_cons] at ih ⊢
      omega

theorem analyze_fold_sum :
    ∀ (emails : List Email) (m : List (Str × SenderStats)),
      sumTotals (emails.foldl analyzeStep m) = sumTotals m + emails.length := by
  intro emails
  induction emails with
  | nil => intro m; simp
  | cons e rest ih =>
    intro m
    simp only [List.foldl_cons, List.length_cons, analyzeStep]
    rw [ih, updateAssoc_sumTotals (fun st => (stepFn_fields e st).1)]
    omega

theorem finalizeStats_fields (st : SenderStats) :
    (finalizeStats st).total = st.total
      ∧ (finalizeStats st).read = st.read
      ∧ (finalizeStats st).unread = st.unread
      ∧ (finalizeStats st).emails = st.emails := by
  unfold finalizeStats
  split <;> simp

theorem sumTotals_finalize (m : List (Str × SenderStats)) :
    sumTotals (m.map (fun p => (p.1, finalizeStats p.2))) = sumTotals m := by
  induction m with
  | nil => rfl
  | cons q rest ih =>
    simp only [List.map_cons, sumTotals, List.map, List.sum_cons] at *
    rw [(finalizeStats_fields q.2).1, ih]

theorem sums_of_pointwise :
    ∀ l : List (Str × SenderStats),
      (∀ p ∈ l, p.2.read + p.2.unread = p.2.total) →
      sumRead l + sumUnread l = sumTotals l := by
  intro l
  induction l with
  | nil => intro _; rfl
  | cons q rest ih =>
    intro h
    have hq := h q (List.mem_cons_self _ _)
    have hr := ih (fun p hp => h p (List.mem_cons_of_mem _ hp))
    simp only [sumRead, sumUnread, sumTotals, List.map_cons, List.sum_cons] at *
    omega

/-- C6: after aggregation every sender record satisfies
`read + unread = total` and `total = len(messages)`, the totals summed
over all senders equal the length of the whole input, and the summed
read and unread counts add up to the summed totals. -/
theorem aggregation_invariants (emails : List Email) :
    (∀ p ∈ analyze_emails emails,
        p.2.read + p.2.unread = p.2.total ∧ p.2.total = p.2.emails.length)
      ∧ sumTotals (analyze_emails emails) = emails.length
      ∧ sumRead (analyze_emails emails) + sumUnread (analyze_emails emails)
          = sumTotals (analyze_emails emails) := by
  have hinv := analyze_fold_inv emails [] (by simp)
  have hpt : ∀ p ∈ analyze_emails emails,
      p.2.read + p.2.unread = p.2.total ∧ p.2.total = p.2.emails.length := by
    intro p hp
    obtain ⟨q, hq, rfl⟩ := List.mem_map.mp hp
    obtain ⟨h1, h2, _⟩ := hinv q hq
    obtain ⟨g1, g2, g3, g4⟩ := finalizeStats_fields q.2
    exact ⟨by rw [g1, g2, g3]; exact h1, by rw [g1, g4]; exact h2⟩
  refine ⟨hpt, ?_, sums_of_pointwise _ (fun p hp => (hpt p hp).1)⟩
  unfold analyze_emails
  rw [sumTotals_finalize, analyze_fold_sum]
  simp [sumTotals]

/-- C6 witness: the invariants instantiated at the concrete two-message
input `demoEmails`, whose aggregation entry is `demoPair`. -/
theorem aggregation_invariants_witness :
    demoPair ∈ analyze_emails demoEmails
      ∧ demoPair.2.read + demoPair.2.unread = demoPair.2.total
      ∧ demoPair.2.total = demoPair.2.emails.length :=
  ⟨by decide,
   ((aggregation_invariants demoEmails).1 demoPair (by decide)).1,
   ((aggregation_invariants demoEmails).1 demoPair (by decide)).2⟩

/-- C9: every finalized read rate lies in `[0, 1]`; an aggregation entry
with `total = 0` keeps the default rate `0`, and the finalizer performs
no division on such a record (it returns it unchanged). -/
theorem read_rate_in_unit (emails : List Email) :
    (∀ p ∈ analyze_emails emails,
        0 ≤ p.2.read_rate ∧ p.2.read_rate ≤ 1
          ∧ (p.2.total = 0 → p.2.read_rate = 0))
      ∧ (∀ st : SenderStats, st.total = 0 → finalizeStats st = st) := by
  constructor
  · intro p hp
    obtain ⟨q, hq, rfl⟩ := List.mem_map.mp hp
    obtain ⟨h1, _, h3⟩ := analyze_fold_inv emails [] (by simp) q hq
    unfold finalizeStats
    split
    · rename_i hpos
      have hle : (q.2.read : ℚ) ≤ (q.2.total : ℚ) := by
        exact_mod_cast Nat.le_of_add_right_le (Nat.le_of_eq h1)
      have hden : (0 : ℚ) < (q.2.total : ℚ) := by exact_mod_cast hpos
      refine ⟨div_nonneg (Nat.cast_nonneg _) (Nat.cast_nonneg _), ?_, ?_⟩
      · simpa using (div_le_one hden).mpr hle
      · intro h0
        simp at h0
        omega
    · rename_i hzero
      simp only [not_lt, Nat.le_zero] at hzero
      exact ⟨by rw [h3], by rw [h3]; norm_num, fun _ => h3⟩
  · intro st h
    unfold finalizeStats
    rw [if_neg]
    omega

/-- C9 witness: the bounds instantiated at the aggregation entry of the
concrete input `demoEmails` (read rate `1/2`). -/
theorem read_rate_in_unit_witness :
    0 ≤ demoPair.2.read_rate ∧ demoPair.2.read_rate ≤ 1 :=
  ⟨((read_rate_in_unit demoEmails).1 demoPair (by decide)).1,
   ((read_rate_in_unit demoEmails).1 demoPair (by decide)).2.1⟩

theorem neverOpenedPred_iff (st : SenderStats) :
    neverOpenedPred st = true ↔ st.total ≥ 5 ∧ st.read = 0 := by
  simp [neverOpenedPred]

theorem rarelyOpenedPred_iff (st : SenderStats) :
    rarelyOpenedPred st = true
      ↔ ¬(st.total ≥ 5 ∧ st.read = 0) ∧ st.total ≥ 3
          ∧ 0 < st.read_rate ∧ st.read_rate < 0.2 := by
  unfold rarelyOpenedPred
  simp only [Bool.and_eq_true, Bool.not_eq_true', Bool.eq_false_iff, ne_eq,
    neverOpenedPred_iff, decide_eq_true_eq, gt_iff_lt]
  tauto

theorem categorize_never_eq (p : Str → Option Int) (c : Int)
    (m : List (Str × SenderStats)) :
    (categorize_senders p c m).never_opened.senders
      = sortByTotal (m.filter (fun x => neverOpenedPred x.2)) := rfl

theorem categorize_rarely_eq (p : Str → Option Int) (c : Int)
    (m : List (Str × SenderStats)) :
    (categorize_senders p c m).rarely_opened.senders
      = sortByTotal (m.filter (fun x => rarelyOpenedPred x.2)) := rfl

theorem categorize_old_eq (p : Str → Option Int) (c : Int)
    (m : List (Str × SenderStats)) :
    (categorize_senders p c m).old_unread.senders
      = sortByTotal (m.filterMap (oldUnreadEntry p c)) := rfl

/-- C4: a sender-stats record is placed in `never_opened` iff
`total >= 5` and `read == 0`, and in `rarely_opened` iff it was not
placed in `never_opened` (the `elif`) and `total >= 3` and
`0 < read_rate < 0.2`; consequently a sender with `total = 6, read = 0`
lands in `never_opened` and not in `rarely_opened`, and one with
`total = 3, read = 0` (read rate 0) lands in neither bucket. -/
theorem never_rarely_bucket_rules (p : Str → Option Int) (c : Int)
    (m : List (Str × SenderStats)) (x : Str × SenderStats) :
    (x ∈ (categorize_senders p c m).never_opened.senders
        ↔ x ∈ m ∧ x.2.total ≥ 5 ∧ x.2.read = 0)
      ∧ (x ∈ (categorize_senders p c m).rarely_opened.senders
        ↔ x ∈ m ∧ ¬(x.2.total ≥ 5 ∧ x.2.read = 0) ∧ x.2.total ≥ 3
            ∧ 0 < x.2.read_rate ∧ x.2.read_rate < 0.2)
      ∧ ("six@x.com".toList, statsOf 6 0)
          ∈ (categorize_senders pNone 0 mBuckets).never_opened.senders
      ∧ ("six@x.com".toList, statsOf 6 0)
          ∉ (categorize_senders pNone 0 mBuckets).rarely_opened.senders
      ∧ ("three@x.com".toList, statsOf 3 0)
          ∉ (categorize_senders pNone 0 mBuckets).never_opened.senders
      ∧ ("three@x.com".toList, statsOf 3 0)
          ∉ (categorize_senders pNone 0 mBuckets).rarely_opened.senders := by
  have hnev : ∀ (p : Str → Option Int) (c : Int) (m : List (Str × SenderStats))
      (x : Str × SenderStats),
      x ∈ (categorize_senders p c m).never_opened.senders
        ↔ x ∈ m ∧ x.2.total ≥ 5 ∧ x.2.read = 0 := by
    intro p c m x
    rw [categorize_never_eq, sortByTotal, List.mem_mergeSort, List.mem_filter,
      neverOpenedPred_iff]
  have hrar : ∀ (p : Str → Option Int) (c : Int) (m : List (Str × SenderStats))
      (x : Str × SenderStats),
      x ∈ (categorize_senders p c m).rarely_opened.senders
        ↔ x ∈ m ∧ ¬(x.2.total ≥ 5 ∧ x.2.read = 0) ∧ x.2.total ≥ 3
            ∧ 0 < x.2.read_rate ∧ x.2.read_rate < 0.2 := by
    intro p c m x
    rw [categorize_rarely_eq, sortByTotal, List.mem_mergeSort, List.mem_filter,
      rarelyOpenedPred_iff]
  refine ⟨hnev p c m x, hrar p c m x, ?_, ?_, ?_, ?_⟩
  · exact (hnev pNone 0 mBuckets _).mpr ⟨by decide, by decide, by decide⟩
  · intro hmem
    obtain ⟨-, -, -, hrate, -⟩ := (hrar pNone 0 mBuckets _).mp hmem
    revert hrate
    decide
  · intro hmem
    obtain ⟨-, htot, -⟩ := (hnev pNone 0 mBuckets _).mp hmem
    revert htot
    decide
  · intro hmem
    obtain ⟨-, -, -, hrate, -⟩ := (hrar pNone 0 mBuckets _).mp hmem
    revert hrate
    decide

/-- C5: a message whose timestamp string no format parses (the parse
function returns `none`) is never counted as old — it cannot appear in
any `old_unread` member's message list — and the parse outcome leaves
every other category of the same categorization run untouched, so
categorization of the remaining messages and senders completes
regardless of parse failures. -/
theorem old_unread_skips_unparsable (p : Str → Option Int) (c : Int)
    (m : List (Str × SenderStats)) :
    (∀ x ∈ (categorize_senders p c m).old_unread.senders,
        ∀ e ∈ x.2.emails, p e.date ≠ none)
      ∧ (∀ q : Str → Option Int,
          (categorize_senders p c m).promotional
              = (categorize_senders q c m).promotional
            ∧ (categorize_senders p c m).marketing
              = (categorize_senders q c m).marketing
            ∧ (categorize_senders p c m).never_opened
              = (categorize_senders q c m).never_opened
            ∧ (categorize_senders p c m).rarely_opened
              = (categorize_senders q c m).rarely_opened
            ∧ (categorize_senders p c m).bulk_senders
              = (categorize_senders q c m).bulk_senders) := by
  constructor
  · intro x hx e he hnone
    rw [categorize_old_eq, sortByTotal, List.mem_mergeSort] at hx
    obtain ⟨a, _, hent⟩ := List.mem_filterMap.mp hx
    simp only [oldUnreadEntry] at hent
    split at hent
    · exact Option.noConfusion hent
    · obtain rfl := Option.some.inj hent
      simp only [oldUnreadEmails, List.mem_filter] at he
      rw [hnone] at he
      simp at he
  · intro q
    exact ⟨rfl, rfl, rfl, rfl, rfl⟩

/-- C5 witness: under the everything-parses function `pZero` with cutoff
1, the single old-unread member of `mOld` exists, and the theorem applied
to it and its message yields that its date parsed. -/
theorem old_unread_skips_unparsable_witness : pZero demoOld.date ≠ none :=
  (old_unread_skips_unparsable pZero 1 mOld).1 xOld
    (by rw [categorize_old_eq, sortByTotal, List.mem_mergeSort]; decide)
    demoOld (by decide)

/-- C10: every `old_unread` member is derived from a sender record of the
input map by replacing exactly the message list (with the qualifying
old-unread subset) and the total (with that subset's size); `read`,
`unread`, `read_rate`, the display name, both timestamp extrema and the
max marketing score keep the sender's global values, and the input map
still holds the unmodified global record. -/
theorem old_unread_frame (p : Str → Option Int) (c : Int)
    (m : List (Str × SenderStats)) (x : Str × SenderStats)
    (hx : x ∈ (categorize_senders p c m).old_unread.senders) :
    ∃ st : SenderStats, (x.1, st) ∈ m
      ∧ oldUnreadEmails p c st.emails ≠ []
      ∧ x.2 = { st with emails := oldUnreadEmails p c st.emails,
                        total := (oldUnreadEmails p c st.emails).length }
      ∧ x.2.read = st.read ∧ x.2.unread = st.unread
      ∧ x.2.read_rate = st.read_rate ∧ x.2.name = st.name
      ∧ x.2.oldest = st.oldest ∧ x.2.newest = st.newest
      ∧ x.2.marketing_score = st.marketing_score
      ∧ x.2.emails = oldUnreadEmails p c st.emails
      ∧ x.2.total = x.2.emails.length := by
  rw [categorize_old_eq, sortByTotal, List.mem_mergeSort] at hx
  obtain ⟨a, ha, hent⟩ := List.mem_filterMap.mp hx
  simp only [oldUnreadEntry] at hent
  split at hent
  · exact Option.noConfusion hent
  · rename_i hne
    obtain rfl := Option.some.inj hent
    refine ⟨a.2, ha, ?_, rfl, rfl, rfl, rfl, rfl, rfl, rfl, rfl, rfl, rfl⟩
    intro h0
    rw [h0] at hne
    simp at hne

/-- C10 witness: the frame property applied to the concrete categorize
run on `mOld`, exhibiting the unmodified global record in the map. -/
theorem old_unread_frame_witness :
    ∃ st : SenderStats, (xOld.1, st) ∈ mOld
      ∧ xOld.2 = { st with emails := oldUnreadEmails pZero 1 st.emails,
                           total := (oldUnreadEmails pZero 1 st.emails).length }
      ∧ xOld.2.read_rate = st.read_rate := by
  obtain ⟨st, h1, _, h3, _, _, h6, _⟩ :=
    old_unread_frame pZero 1 mOld xOld
      (by rw [categorize_old_eq, sortByTotal, List.mem_mergeSort]; decide)
  exact ⟨st, h1, h3, h6⟩

theorem contains_iff_mem {l : List Str} {s : Str} :
    l.contains s = true ↔ s ∈ l := by
  simp [List.contains]

theorem keepFirst_cons_mem {seen : List Str} {e : Email} (h : e.id ∈ seen)
    (rest : List Email) :
    keepFirst seen (e :: rest) = keepFirst seen rest := by
  simp [keepFirst, List.contains, h]

theorem keepFirst_cons_not_mem {seen : List Str} {e : Email}
    (h : e.id ∉ seen) (rest : List Email) :
    keepFirst seen (e :: rest) = e :: keepFirst (e.id :: seen) rest := by
  simp [keepFirst, List.contains, h]

theorem foldl_dedupStep :
    ∀ (l : List Email) (seen : List Str) (acc : List Email),
      l.foldl dedupStep (seen, acc)
        = (seenAfter seen l, acc ++ keepFirst seen l) := by
  intro l
  induction l with
  | nil => intro seen acc; simp [seenAfter, keepFirst]
  | cons e rest ih =>
    intro seen acc
    by_cases h : e.id ∈ seen <;>
      simp [dedupStep, seenAfter, keepFirst, List.contains, h, ih]

theorem dedupById_eq_keepFirst (l : List Email) :
    dedupById l = keepFirst [] l := by
  unfold dedupById
  rw [foldl_dedupStep]
  simp

theorem foldl_dedup_flatten :
    ∀ (ls : List (List Email)) (acc : List Str × List Email),
      ls.foldl (fun a l => l.foldl dedupStep a) acc
        = ls.flatten.foldl dedupStep acc := by
  intro ls
  induction ls with
  | nil => intro acc; simp
  | cons l rest ih =>
    intro acc
    simp only [List.foldl_cons, List.flatten_cons, List.foldl_append, ih]

theorem auto_clean_eq_dedup (cats : Categories) :
    auto_clean_emails cats = dedupById (collectEmails cats) := by
  unfold auto_clean_emails dedupById collectEmails
  congr 1
  rw [← foldl_dedup_flatten, List.foldl_map]
  congr 1
  funext acc cat
  rw [← foldl_dedup_flatten, List.foldl_map]

theorem keepFirst_sublist : ∀ (l : List Email) (seen : List Str),
    List.Sublist (keepFirst seen l) l := by
  intro l
  induction l with
  | nil => intro seen; simp [keepFirst]
  | cons e rest ih =>
    intro seen
    by_cases h : e.id ∈ seen
    · rw [keepFirst_cons_mem h]
      exact (ih seen).cons e
    · rw [keepFirst_cons_not_mem h]
      exact (ih (e.id :: seen)).cons₂ e

theorem keepFirst_nodup : ∀ (l : List Email) (seen : List Str),
    ((keepFirst seen l).map Email.id).Nodup
      ∧ ∀ s ∈ seen, s ∉ (keepFirst seen l).map Email.id := by
  intro l
  induction l with
  | nil => intro seen; simp [keepFirst]
  | cons e rest ih =>
    intro seen
    by_cases h : e.id ∈ seen
    · rw [keepFirst_cons_mem h]
      exact ih seen
    · rw [keepFirst_cons_not_mem h]
      obtain ⟨hnd, hs⟩ := ih (e.id :: seen)
      constructor
      · simp only [List.map_cons, List.nodup_cons]
        exact ⟨hs e.id (List.mem_cons_self _ _), hnd⟩
      · intro s hsmem
        simp only [List.map_cons, List.mem_cons]
        push_neg
        exact ⟨fun heq => h (heq ▸ hsmem),
               hs s (List.mem_cons_of_mem _ hsmem)⟩

theorem keepFirst_covers : ∀ (l : List Email) (seen : List Str) (e : Email),
    e ∈ l → e.id ∈ seen ∨ ∃ e' ∈ keepFirst seen l, e'.id = e.id := by
  intro l
  induction l with
  | nil => intro seen e he; exact absurd he (List.not_mem_nil e)
  | cons hd rest ih =>
    intro seen e he
    by_cases h : hd.id ∈ seen
    · rw [keepFirst_cons_mem h]
      rcases List.mem_cons.mp he with rfl | he'
      · exact Or.inl h
      · exact ih seen e he'
    · rw [keepFirst_cons_not_mem h]
      rcases List.mem_cons.mp he with rfl | he'
      · exact Or.inr ⟨e, List.mem_cons_self _ _, rfl⟩
      · rcases ih (hd.id :: seen) e he' with hseen | ⟨e', he'', hid⟩
        · rcases List.mem_cons.mp hseen with heq | hseen'
          · exact Or.inr ⟨hd, List.mem_cons_self _ _, heq.symm⟩
          · exact Or.inl hseen'
        · exact Or.inr ⟨e', List.mem_cons_of_mem _ he'', hid⟩

theorem keepFirst_firstOccur :
    ∀ (l : List Email) (seen : List Str) (e : Email),
      e ∈ keepFirst seen l →
      (l.filter (fun x => x.id == e.id)).head? = some e ∧ e.id ∉ seen := by
  intro l
  induction l with
  | nil => intro seen e he; simp [keepFirst] at he
  | cons hd rest ih =>
    intro seen e he
    by_cases h : hd.id ∈ seen
    · rw [keepFirst_cons_mem h] at he
      obtain ⟨hh, hs⟩ := ih seen e he
      have hne : (hd.id == e.id) = false := by
        rw [beq_eq_false_iff_ne]
        intro heq
        exact hs (heq ▸ h)
      have hfil : (hd :: rest).filter (fun x => x.id == e.id)
          = rest.filter (fun x => x.id == e.id) := by
        simp [List.filter_cons, hne]
      rw [hfil]
      exact ⟨hh, hs⟩
    · rw [keepFirst_cons_not_mem h] at he
      rcases List.mem_cons.mp he with rfl | he'
      · have hfil : (e :: rest).filter (fun x => x.id == e.id)
            = e :: rest.filter (fun x => x.id == e.id) := by
          simp [List.filter_cons]
        rw [hfil]
        exact ⟨rfl, h⟩
      · obtain ⟨hh, hs⟩ := ih (hd.id :: seen) e he'
        have hne2 : e.id ≠ hd.id := fun heq =>
          hs (by rw [heq]; exact List.mem_cons_self _ _)
        have hne : (hd.id == e.id) = false :=
          beq_eq_false_iff_ne.mpr (fun heq => hne2 heq.symm)
        have hfil : (hd :: rest).filter (fun x => x.id == e.id)
            = rest.filter (fun x => x.id == e.id) := by
          simp [List.filter_cons, hne]
        rw [hfil]
        exact ⟨hh, fun hmem => hs (List.mem_cons_of_mem _ hmem)⟩

theorem keepFirst_of_nodup :
    ∀ (l : List Email) (seen : List Str),
      (l.map Email.id).Nodup → (∀ x ∈ l, x.id ∉ seen) →
      keepFirst seen l = l := by
  intro l
  induction l with
  | nil => intro seen _ _; rfl
  | cons hd rest ih =>
    intro seen hnd hs
    have h : hd.id ∉ seen := hs hd (List.mem_cons_self _ _)
    rw [keepFirst_cons_not_mem h]
    simp only [List.map_cons, List.nodup_cons] at hnd
    congr 1
    refine ih (hd.id :: seen) hnd.2 ?_
    intro x hx
    simp only [List.mem_cons]
    push_neg
    exact ⟨fun heq => hnd.1 (heq ▸ List.mem_map_of_mem Email.id hx),
           hs x (List.mem_cons_of_mem _ hx)⟩

/-- C3: the auto-clean-all delete-set equals the id-keyed first-occurrence
deduplication of the concatenation of all category member messages in
category-then-member-then-message order; the result carries each message
id at most once, is a subsequence of that concatenation, each kept
message is the first element of that concatenation bearing its id (first
encounter wins for placement), every referenced id is still represented,
and a concatenation already free of duplicate ids is returned unchanged
(idempotence on duplicate-free input). -/
theorem auto_clean_dedup (cats : Categories) :
    auto_clean_emails cats = dedupById (collectEmails cats)
      ∧ ((dedupById (collectEmails cats)).map Email.id).Nodup
      ∧ List.Sublist (dedupById (collectEmails cats)) (collectEmails cats)
      ∧ (∀ e ∈ collectEmails cats,
          ∃ e' ∈ dedupById (collectEmails cats), e'.id = e.id)
      ∧ (∀ e ∈ dedupById (collectEmails cats),
          ((collectEmails cats).filter (fun x => x.id == e.id)).head?
            = some e)
      ∧ (((collectEmails cats).map Email.id).Nodup →
          dedupById (collectEmails cats) = collectEmails cats) := by
  rw [auto_clean_eq_dedup, dedupById_eq_keepFirst]
  refine ⟨rfl, (keepFirst_nodup _ []).1, keepFirst_sublist _ [], ?_, ?_, ?_⟩
  · intro e he
    rcases keepFirst_covers _ [] e he with h | h
    · exact absurd h (List.not_mem_nil _)
    · exact h
  · intro e he
    exact (keepFirst_firstOccur _ [] e he).1
  · intro hnd
    exact keepFirst_of_nodup _ [] hnd (by simp)

/-- C3 witness: on the concrete category family `catsDemo`, where
`demoEmail1` appears under two categories, auto-clean keeps exactly one
copy of each message, and the covering conjunct applied to `demoEmail1`
exhibits its kept representative. -/
theorem auto_clean_dedup_witness :
    auto_clean_emails catsDemo = [demoEmail1, demoEmail2]
      ∧ ∃ e' ∈ dedupById (collectEmails catsDemo), e'.id = demoEmail1.id := by
  have h := auto_clean_dedup catsDemo
  refine ⟨?_, h.2.2.2.1 demoEmail1 (by decide)⟩
  rw [h.1]
  decide

theorem containsSub_nil_needle : ∀ l : Str, containsSub l [] = true := by
  intro l
  cases l <;> simp [containsSub, isPrefixCh]

theorem isPrefixCh_append :
    ∀ (n a b : Str), isPrefixCh n a = true → isPrefixCh n (a ++ b) = true := by
  intro n
  induction n with
  | nil => intro a b _; rfl
  | cons x xs ih =>
    intro a b h
    cases a with
    | nil => simp [isPrefixCh] at h
    | cons y ys =>
      simp only [List.cons_append, isPrefixCh, Bool.and_eq_true] at h ⊢
      exact ⟨h.1, ih ys b h.2⟩

theorem containsSub_append_left :
    ∀ (a b n : Str), containsSub a n = true → containsSub (a ++ b) n = true := by
  intro a
  induction a with
  | nil =>
    intro b n h
    simp only [containsSub, List.isEmpty_iff] at h
    subst h
    simpa using containsSub_nil_needle b
  | cons c rest ih =>
    intro b n h
    simp only [containsSub, Bool.or_eq_true] at h
    simp only [List.cons_append, containsSub, Bool.or_eq_true]
    rcases h with h | h
    · exact Or.inl (by simpa [List.cons_append] using
        isPrefixCh_append n (c :: rest) b h)
    · exact Or.inr (ih b n h)

theorem containsSub_append_right :
    ∀ (a b n : Str), containsSub b n = true → containsSub (a ++ b) n = true := by
  intro a
  induction a with
  | nil => intro b n h; simpa using h
  | cons c rest ih =>
    intro b n h
    simp only [List.cons_append, containsSub, Bool.or_eq_true]
    exact Or.inr (ih b n h)

theorem isPrefixCh_map (f : Char → Char) :
    ∀ (n a : Str), isPrefixCh n a = true →
      isPrefixCh (n.map f) (a.map f) = true := by
  intro n
  induction n with
  | nil => intro a _; rfl
  | cons x xs ih =>
    intro a h
    cases a with
    | nil => simp [isPrefixCh] at h
    | cons y ys =>
      simp only [List.map_cons, isPrefixCh, Bool.and_eq_true, beq_iff_eq]
        at h ⊢
      exact ⟨by rw [h.1], ih ys h.2⟩

theorem containsSub_map (f : Char → Char) :
    ∀ (a n : Str), containsSub a n = true →
      containsSub (a.map f) (n.map f) = true := by
  intro a
  induction a with
  | nil =>
    intro n h
    simp only [containsSub, List.isEmpty_iff] at h
    subst h
    rfl
  | cons c rest ih =>
    intro n h
    simp only [containsSub, Bool.or_eq_true] at h
    simp only [List.map_cons, containsSub, Bool.or_eq_true]
    rcases h with h | h
    · exact Or.inl (isPrefixCh_map f n (c :: rest) h)
    · exact Or.inr (ih n h)

/-- C8: the scenario message — sender `newsletter@shein.com`, subject
`Exclusive Offer — Don't Miss This Sale!`, no provider category hints,
any snippet containing the literal `unsubscribe` — scores at least 10
(sender pattern +2, known domain +3, ≥3 distinct keywords +4,
unsubscribe +3 = 12) and is classified as marketing. -/
theorem shein_scenario (snippet : Str)
    (h : containsSub snippet unsubscribeStr = true) :
    (is_marketing_email (sheinEmail snippet)).2.1 ≥ 10
      ∧ (is_marketing_email (sheinEmail snippet)).1 = true := by
  have hunsubS : containsSub (lowerStr snippet) unsubscribeStr = true := by
    have hm := containsSub_map Char.toLower snippet unsubscribeStr h
    rwa [show unsubscribeStr.map Char.toLower = unsubscribeStr from by decide]
      at hm
  have htun : containsSub
      (marketingText (lowerStr subjShein) (lowerStr snippet))
      unsubscribeStr = true :=
    containsSub_append_right (lowerStr subjShein) _ _
      (containsSub_append_right [' '] (lowerStr snippet) _ hunsubS)
  have hdm : containsSub (marketingText (lowerStr subjShein) (lowerStr snippet))
      ("don".toList ++ apos :: "t miss".toList) = true :=
    containsSub_append_left (lowerStr subjShein) _ _ (by decide)
  have heo : containsSub (marketingText (lowerStr subjShein) (lowerStr snippet))
      "exclusive offer".toList = true :=
    containsSub_append_left (lowerStr subjShein) _ _ (by decide)
  have hsa : containsSub (marketingText (lowerStr subjShein) (lowerStr snippet))
      "sale".toList = true :=
    containsSub_append_left (lowerStr subjShein) _ _ (by decide)
  have hsubl : List.Sublist
      [unsubscribeStr, "don".toList ++ apos :: "t miss".toList,
       "exclusive offer".toList, "sale".toList] MARKETING_KEYWORDS := by
    decide
  have hc4 : List.countP
      (fun k =>
        containsSub (marketingText (lowerStr subjShein) (lowerStr snippet)) k)
      [unsubscribeStr, "don".toList ++ apos :: "t miss".toList,
       "exclusive offer".toList, "sale".toList] = 4 := by
    simp only [List.countP_cons, List.countP_nil]
    rw [htun, hdm, heo, hsa]
    norm_num
  have hkm : 4 ≤ keywordMatches
      (marketingText (lowerStr subjShein) (lowerStr snippet)) := by
    unfold keywordMatches
    rw [← hc4]
    exact hsubl.countP_le _
  have hks : keywordScore
      (marketingText (lowerStr subjShein) (lowerStr snippet)) = 4 := by
    unfold keywordScore
    rw [if_pos (by omega)]
  have hus : unsubscribeScore
      (marketingText (lowerStr subjShein) (lowerStr snippet)) = 3 := by
    unfold unsubscribeScore
    rw [if_pos htun]
  have hpat : (senderPatternHit
      (parse_sender ("newsletter@shein.com".toList)).1
      (lowerStr (parse_sender ("newsletter@shein.com".toList)).2)).isSome
      = true := by decide
  have hdom : (domainHit
      (parse_sender ("newsletter@shein.com".toList)).1).isSome = true := by
    decide
  have hscore : heuristicScore
      (parse_sender ("newsletter@shein.com".toList)).1
      (lowerStr (parse_sender ("newsletter@shein.com".toList)).2)
      (marketingText (lowerStr subjShein) (lowerStr snippet)) = 12 := by
    unfold heuristicScore
    rw [hpat, hdom, hks, hus]
    norm_num
  constructor
  · show heuristicScore
        (parse_sender ("newsletter@shein.com".toList)).1
        (lowerStr (parse_sender ("newsletter@shein.com".toList)).2)
        (marketingText (lowerStr subjShein) (lowerStr snippet)) ≥ 10
    rw [hscore]
    norm_num
  · show decide (heuristicScore
        (parse_sender ("newsletter@shein.com".toList)).1
        (lowerStr (parse_sender ("newsletter@shein.com".toList)).2)
        (marketingText (lowerStr subjShein) (lowerStr snippet)) ≥ 3) = true
    rw [hscore]
    decide

/-- C8 witness: the scenario applied to the concrete snippet
`please unsubscribe here`. -/
theorem shein_scenario_witness :
    containsSub ("please unsubscribe here".toList) unsubscribeStr = true
      ∧ (is_marketing_email
          (sheinEmail ("please unsubscribe here".toList))).2.1 ≥ 10
      ∧ (is_marketing_email
          (sheinEmail ("please unsubscribe here".toList))).1 = true :=
  ⟨by decide, (shein_scenario _ (by decide)).1, (shein_scenario _ (by decide)).2⟩

/-- C7, counterexample: the range expression `0-10` against the 5-item
displayed list `[1,2,3,4,5]` yields exactly the last item `[5]` — the
1-based-to-0-based shift turns bound 0 into Python slice index `-1`,
which wraps to the end of the list — so the selection neither clips to
the in-range items `[1,2,3,4,5]` nor resolves to the empty selection. -/
theorem selection_zero_range_counterexample :
    resolveSelection "0-10".toList [1, 2, 3, 4, 5] = [5]
      ∧ resolveSelection "0-10".toList [1, 2, 3, 4, 5] ≠ []
      ∧ resolveSelection "0-10".toList [1, 2, 3, 4, 5] ≠ [1, 2, 3, 4, 5] := by
  refine ⟨by decide, by decide, by decide⟩

/-- C7, amended: a malformed selection expression — not `all`, with the
parse of whichever branch applies to it (range, else comma list)
failing — resolves to the empty selection without raising; and `0-10`
against a 5-item displayed list does not raise but resolves to the single
final displayed item (`l.drop 4`), because bound 0 becomes the wrapping
Python slice index `-1` — not to a clipped or empty selection. -/
theorem selection_malformed_and_zero_range {α : Type} (sel : Str)
    (l : List α) :
    (sel ≠ "all".toList →
      (if sel.contains '-' && !sel.contains ',' then parseRange sel = none
       else parseCommaList sel = none) →
      resolveSelection sel l = [])
      ∧ (l.length = 5 → resolveSelection "0-10".toList l = l.drop 4) := by
  constructor
  · intro hne hparse
    unfold resolveSelection
    rw [if_neg hne]
    by_cases hb : (sel.contains '-' && !sel.contains ',') = true
    · rw [if_pos hb]
      rw [if_pos hb] at hparse
      rw [hparse]
    · rw [if_neg hb]
      rw [if_neg hb] at hparse
      rw [hparse]
  · intro hlen
    unfold resolveSelection
    rw [if_neg (by decide), if_pos (by decide),
      show parseRange ("0-10".toList) = some (0, 10) from by decide]
    show pySlice l (0 - 1) 10 = l.drop 4
    unfold pySlice
    rw [hlen]
    norm_num
    exact List.take_of_length_le (by simp [hlen])

/-- C7 witness: the amended theorem applied to the malformed expression
`abc` and to `0-10`, both against the 5-item list `[1,2,3,4,5]`. -/
theorem selection_malformed_witness :
    resolveSelection "abc".toList [1, 2, 3, 4, 5] = []
      ∧ resolveSelection "0-10".toList [1, 2, 3, 4, 5]
          = [1, 2, 3, 4, 5].drop 4 :=
  ⟨(selection_malformed_and_zero_range "abc".toList [1, 2, 3, 4, 5]).1
      (by decide) (by decide),
   (selection_malformed_and_zero_range "0-10".toList [1, 2, 3, 4, 5]).2
      (by decide)⟩

end DecidableRatEval

end SmartEmailCleaner
